import Mathlib

/-!
Verification development for the fselect query engine (src/src/searcher.rs).

The definitions below are a shallow embedding of the evaluator in
`searcher.rs`.  Machine integers are modelled as `Nat`/`Int` (no overflow is
relevant to the verified properties), fallible operations return `Option`,
and the three lazily-acquired metadata slots (`meta`, `dim`, `mp3`) are
threaded explicitly as a `Slots` record, exactly as the Rust code threads
them through `Searcher::conforms`.

Types that live in source files not present in this repository snapshot
(`parser.rs`, `util.rs`, `mode.rs`) are modelled from the specification and
are marked with a doc comment starting `Modelled from the spec:`.
-/

namespace FSelect

/-- Comparison operators of a predicate leaf (`parser::Op`). -/
inductive Op where
  | Eq | Ne | Eeq | Ene | Gt | Gte | Lt | Lte | Rx | Like
deriving DecidableEq

/-- The fields referenced by the claims under verification
(`field::Field`; constructors restricted to the claim-relevant subset of
the closed enumeration). -/
inductive Field where
  | Name | Path | Mode
  | Uid | Gid | User | Group
  | Created | Accessed | Modified
  | HasXattrs | IsShebang
  | Width | Height
  | Bitrate | Freq | Title | Artist | Album | Year | Genre
deriving DecidableEq

/-- Audio tag data (`mp3_metadata::Tag`); `genre` is kept as its rendered
string, matching the `format!("{:?}", genre)` uses in the source. -/
structure Mp3Tag where
  title : String
  artist : String
  album : String
  genre : String
  year : Nat

/-- Audio metadata (`mp3_metadata::MP3Metadata`), reduced to the first
frame's bitrate and sampling frequency plus the optional tag, which is all
the evaluator reads. -/
structure Mp3Meta where
  bitrate : Nat
  samplingFreq : Nat
  tag : Option Mp3Tag

/-- Inode metadata (`std::fs::Metadata`) as consumed by the evaluator.
`uid`/`gid` are `Option` (absent on non-unix), `created`/`accessed`/
`modified` are `Option` local timestamps (the corresponding accessor may
return `Err`).  `modeBits` are the raw permission bits. -/
structure Meta where
  size : Nat
  modeBits : Nat
  uid : Option Nat
  gid : Option Nat
  created : Option Int
  accessed : Option Int
  modified : Option Int

/-- A virtual archive entry (`fileinfo::FileInfo`): name, size, optional
mode bits and modified timestamp (already converted to local time). -/
structure FileInfo where
  name : String
  size : Nat
  mode : Option Nat
  modified : Int

/-- A real directory entry together with what the filesystem would answer
for each lazily-acquired source: `metaAvail` is the `stat` result,
`dimAvail` the image-probe result, `mp3Avail` the audio-probe result,
`xattrCount` the xattr listing (`none` when open/list fails), and
`firstTwoBytes` the first two bytes of the file (`none` when unreadable). -/
structure RealEntry where
  name : String
  path : String
  metaAvail : Option Meta
  dimAvail : Option (Nat × Nat)
  mp3Avail : Option Mp3Meta
  xattrCount : Option Nat
  firstTwoBytes : Option (Nat × Nat)

/-- Modelled from the spec: the external collaborators the leaf evaluator
consults — the user/group resolver (`UsersCache`, §6) and the mode
formatter (`mode::format_mode` / `mode::get_mode`, `mode.rs` not in this
snapshot). -/
structure Env where
  resolveUser : Nat → Option String
  resolveGroup : Nat → Option String
  formatMode : Nat → String

/-- The three metadata slots threaded through `Searcher::conforms`. -/
structure Slots where
  meta : Option Meta
  dim : Option (Nat × Nat)
  mp3 : Option Mp3Meta

/-- `update_meta` (searcher.rs:2039): stat only when the slot is empty. -/
def update_meta (entry : RealEntry) (meta : Option Meta) : Option Meta :=
  match meta with
  | some m => some m
  | none => entry.metaAvail

/-- `update_img_dimensions` (searcher.rs:2054). -/
def update_img_dimensions (entry : RealEntry) (dim : Option (Nat × Nat)) :
    Option (Nat × Nat) :=
  match dim with
  | some d => some d
  | none => entry.dimAvail

/-- `update_mp3_meta` (searcher.rs:2066). -/
def update_mp3_meta (entry : RealEntry) (mp3 : Option Mp3Meta) :
    Option Mp3Meta :=
  match mp3 with
  | some m => some m
  | none => entry.mp3Avail

/-- `is_shebang` (searcher.rs:2078): first two bytes are `0x23 0x21`. -/
def is_shebang (entry : RealEntry) : Bool :=
  match entry.firstTwoBytes with
  | some (a, b) => a == 0x23 && b == 0x21
  | none => false

/-- `has_extension` (searcher.rs:2140). -/
def has_extension (fileName : String) (exts : List String) : Bool :=
  exts.any (fun e => fileName.toLower.endsWith e)

/-- `is_image_dim_readable` (searcher.rs:2135). -/
def is_image_dim_readable (fileName : String) : Bool :=
  has_extension fileName [".bmp", ".gif", ".jpeg", ".jpg", ".png", ".webp"]

/-- Modelled from the spec: `str_to_bool` (util.rs, not in this snapshot);
§4.4: `true`, `1`, `yes` are truthy, anything else is false. -/
def str_to_bool (s : String) : Bool :=
  s == "true" || s == "1" || s == "yes"

/-- The operator dispatch used by `Name`, `Path`, `User` and `Group`
(searcher.rs:1009-1035 and the identical blocks for the other fields):
`Eq`/`Ne` use the precompiled regex when present, `Rx`/`Like` require it,
`Eeq`/`Ene` always compare exactly. -/
def strMatchFull (op : Option Op) (val : String) (rx : Option (String → Bool))
    (s : String) : Bool :=
  match op with
  | some Op.Eq =>
      match rx with
      | some r => r s
      | none => val == s
  | some Op.Ne =>
      match rx with
      | some r => !(r s)
      | none => val != s
  | some Op.Rx | some Op.Like =>
      match rx with
      | some r => r s
      | none => false
  | some Op.Eeq => val == s
  | some Op.Ene => val != s
  | _ => false

/-- The operator dispatch used by the tag fields `Title`, `Artist`,
`Album`, `Genre` (searcher.rs:1760-1780 and the identical blocks): note
that `Eeq` shares the `Eq` arm and `Ene` shares the `Ne` arm, so both use
the regex when one was precompiled. -/
def strMatchTag (op : Option Op) (val : String) (rx : Option (String → Bool))
    (s : String) : Bool :=
  match op with
  | some Op.Eq | some Op.Eeq =>
      match rx with
      | some r => r s
      | none => val == s
  | some Op.Ne | some Op.Ene =>
      match rx with
      | some r => !(r s)
      | none => val != s
  | some Op.Rx | some Op.Like =>
      match rx with
      | some r => r s
      | none => false
  | _ => false

/-- The operator dispatch used by the `Mode` field (searcher.rs:1410-1430):
only `Eq`, `Ne` and `Rx`/`Like` arms exist; every other operator —
including `Eeq` and `Ene` — falls into the default arm and yields false. -/
def strMatchMode (op : Option Op) (val : String) (rx : Option (String → Bool))
    (s : String) : Bool :=
  match op with
  | some Op.Eq =>
      match rx with
      | some r => r s
      | none => val == s
  | some Op.Ne =>
      match rx with
      | some r => !(r s)
      | none => val != s
  | some Op.Rx | some Op.Like =>
      match rx with
      | some r => r s
      | none => false
  | _ => false

/-- The numeric operator dispatch (searcher.rs:1120-1128 and the identical
blocks for the other numeric fields). -/
def numMatch (op : Option Op) (x v : Nat) : Bool :=
  match op with
  | some Op.Eq | some Op.Eeq => x == v
  | some Op.Ne | some Op.Ene => x != v
  | some Op.Gt => decide (x > v)
  | some Op.Gte => decide (x ≥ v)
  | some Op.Lt => decide (x < v)
  | some Op.Lte => decide (x ≤ v)
  | _ => false

/-- The boolean operator dispatch (searcher.rs:1614-1630 and the identical
blocks for the other boolean fields). -/
def boolMatch (op : Option Op) (boolVal actual : Bool) : Bool :=
  match op with
  | some Op.Eq | some Op.Eeq => if boolVal then actual else !actual
  | some Op.Ne | some Op.Ene => if boolVal then !actual else actual
  | _ => false

/-- The datetime-range operator dispatch shared by `Created`, `Accessed`
and `Modified` (searcher.rs:1521-1531, 1550-1560, 1587-1597). -/
def dtMatch (op : Option Op) (dt start finish : Int) : Bool :=
  match op with
  | some Op.Eeq => dt == start
  | some Op.Ene => dt != start
  | some Op.Eq => decide (start ≤ dt) && decide (dt ≤ finish)
  | some Op.Ne => decide (dt < start) || decide (finish < dt)
  | some Op.Gt => decide (finish < dt)
  | some Op.Gte => decide (start ≤ dt)
  | some Op.Lt => decide (dt < start)
  | some Op.Lte => decide (dt ≤ finish)
  | _ => false

/-- A predicate leaf of `parser::Expr`: field, operator, value, optional
precompiled regex (modelled as its matching function) and optional parsed
datetime range.  The parser guarantees `dtFrom`/`dtTo` are set whenever a
datetime field is compared (the source unwraps them). -/
structure LeafPred where
  field : Field
  op : Option Op
  val : Option String
  rx : Option (String → Bool)
  dtFrom : Option Int
  dtTo : Option Int

/-- The per-field leaf evaluation of `Searcher::conforms`
(searcher.rs:999-1947).  Returns the predicate result together with the
updated slots.  `fileInfo = some _` means the entry is a virtual archive
entry; the fields that require inode/image/audio metadata return false for
such entries before touching anything else, exactly as the source's early
`return (false, meta, dim, mp3)`. -/
def evalLeaf (env : Env) (entry : RealEntry) (fileInfo : Option FileInfo)
    (p : LeafPred) (s : Slots) : Bool × Slots :=
  match p.field with
  | Field.Name =>
      match p.val with
      | none => (false, s)
      | some val =>
          let fileName := match fileInfo with
            | some fi => fi.name
            | none => entry.name
          (strMatchFull p.op val p.rx fileName, s)
  | Field.Path =>
      match p.val with
      | none => (false, s)
      | some val =>
          let filePath := match fileInfo with
            | some fi => fi.name
            | none => entry.path
          (strMatchFull p.op val p.rx filePath, s)
  | Field.Mode =>
      match p.val with
      | none => (false, s)
      | some val =>
          match fileInfo with
          | some fi =>
              match fi.mode with
              | some m => (strMatchMode p.op val p.rx (env.formatMode m), s)
              | none => (false, s)
          | none =>
              let meta := update_meta entry s.meta
              let s := { s with meta := meta }
              match meta with
              | some md => (strMatchMode p.op val p.rx (env.formatMode md.modeBits), s)
              | none => (false, s)
  | Field.Uid =>
      if fileInfo.isSome then (false, s) else
      match p.val with
      | none => (false, s)
      | some val =>
          let meta := update_meta entry s.meta
          let s := { s with meta := meta }
          match meta with
          | some md =>
              match val.toNat? with
              | some uid =>
                  match md.uid with
                  | some fileUid => (numMatch p.op fileUid uid, s)
                  | none => (false, s)
              | none => (false, s)
          | none => (false, s)
  | Field.Gid =>
      if fileInfo.isSome then (false, s) else
      match p.val with
      | none => (false, s)
      | some val =>
          let meta := update_meta entry s.meta
          let s := { s with meta := meta }
          match meta with
          | some md =>
              match val.toNat? with
              | some gid =>
                  match md.gid with
                  | some fileGid => (numMatch p.op fileGid gid, s)
                  | none => (false, s)
              | none => (false, s)
          | none => (false, s)
  | Field.User =>
      if fileInfo.isSome then (false, s) else
      match p.val with
      | none => (false, s)
      | some val =>
          let meta := update_meta entry s.meta
          let s := { s with meta := meta }
          match meta with
          | some md =>
              match md.uid with
              | some fileUid =>
                  match env.resolveUser fileUid with
                  | some userName => (strMatchFull p.op val p.rx userName, s)
                  | none => (false, s)
              | none => (false, s)
          | none => (false, s)
  | Field.Group =>
      if fileInfo.isSome then (false, s) else
      match p.val with
      | none => (false, s)
      | some val =>
          let meta := update_meta entry s.meta
          let s := { s with meta := meta }
          match meta with
          | some md =>
              match md.gid with
              | some fileGid =>
                  match env.resolveGroup fileGid with
                  | some groupName => (strMatchFull p.op val p.rx groupName, s)
                  | none => (false, s)
              | none => (false, s)
          | none => (false, s)
  | Field.Created =>
      if fileInfo.isSome then (false, s) else
      match p.val with
      | none => (false, s)
      | some _ =>
          let meta := update_meta entry s.meta
          let s := { s with meta := meta }
          match meta with
          | some md =>
              match md.created with
              | some dt =>
                  match p.dtFrom, p.dtTo with
                  | some start, some finish => (dtMatch p.op dt start finish, s)
                  | _, _ => (false, s)
              | none => (false, s)
          | none => (false, s)
  | Field.Accessed =>
      if fileInfo.isSome then (false, s) else
      match p.val with
      | none => (false, s)
      | some _ =>
          let meta := update_meta entry s.meta
          let s := { s with meta := meta }
          match meta with
          | some md =>
              match md.accessed with
              | some dt =>
                  match p.dtFrom, p.dtTo with
                  | some start, some finish => (dtMatch p.op dt start finish, s)
                  | _, _ => (false, s)
              | none => (false, s)
          | none => (false, s)
  | Field.Modified =>
      match p.val with
      | none => (false, s)
      | some _ =>
          match fileInfo with
          | some fi =>
              match p.dtFrom, p.dtTo with
              | some start, some finish => (dtMatch p.op fi.modified start finish, s)
              | _, _ => (false, s)
          | none =>
              let meta := update_meta entry s.meta
              let s := { s with meta := meta }
              match meta with
              | some md =>
                  match md.modified with
                  | some dt =>
                      match p.dtFrom, p.dtTo with
                      | some start, some finish => (dtMatch p.op dt start finish, s)
                      | _, _ => (false, s)
                  | none => (false, s)
              | none => (false, s)
  | Field.HasXattrs =>
      if fileInfo.isSome then (false, s) else
      match p.val with
      | none => (false, s)
      | some val =>
          match entry.xattrCount with
          | some n => (boolMatch p.op (str_to_bool val) (decide (n > 0)), s)
          | none => (false, s)
  | Field.IsShebang =>
      if fileInfo.isSome then (false, s) else
      (is_shebang entry, s)
  | Field.Width =>
      if fileInfo.isSome then (false, s) else
      if !is_image_dim_readable entry.name then (false, s) else
      match p.val with
      | none => (false, s)
      | some val =>
          let dim := update_img_dimensions entry s.dim
          let s := { s with dim := dim }
          match dim with
          | some (w, _) =>
              match val.toNat? with
              | some v => (numMatch p.op w v, s)
              | none => (false, s)
          | none => (false, s)
  | Field.Height =>
      if fileInfo.isSome then (false, s) else
      if !is_image_dim_readable entry.name then (false, s) else
      match p.val with
      | none => (false, s)
      | some val =>
          let dim := update_img_dimensions entry s.dim
          let s := { s with dim := dim }
          match dim with
          | some (_, h) =>
              match val.toNat? with
              | some v => (numMatch p.op h v, s)
              | none => (false, s)
          | none => (false, s)
  | Field.Bitrate =>
      if fileInfo.isSome then (false, s) else
      match p.val with
      | none => (false, s)
      | some val =>
          let mp3 := update_mp3_meta entry s.mp3
          let s := { s with mp3 := mp3 }
          match mp3 with
          | some m =>
              match val.toNat? with
              | some v => (numMatch p.op m.bitrate v, s)
              | none => (false, s)
          | none => (false, s)
  | Field.Freq =>
      if fileInfo.isSome then (false, s) else
      match p.val with
      | none => (false, s)
      | some val =>
          let mp3 := update_mp3_meta entry s.mp3
          let s := { s with mp3 := mp3 }
          match mp3 with
          | some m =>
              match val.toNat? with
              | some v => (numMatch p.op m.samplingFreq v, s)
              | none => (false, s)
          | none => (false, s)
  | Field.Title =>
      if fileInfo.isSome then (false, s) else
      match p.val with
      | none => (false, s)
      | some val =>
          let mp3 := update_mp3_meta entry s.mp3
          let s := { s with mp3 := mp3 }
          match mp3 with
          | some m =>
              match m.tag with
              | some tag => (strMatchTag p.op val p.rx tag.title, s)
              | none => (false, s)
          | none => (false, s)
  | Field.Artist =>
      if fileInfo.isSome then (false, s) else
      match p.val with
      | none => (false, s)
      | some val =>
          let mp3 := update_mp3_meta entry s.mp3
          let s := { s with mp3 := mp3 }
          match mp3 with
          | some m =>
              match m.tag with
              | some tag => (strMatchTag p.op val p.rx tag.artist, s)
              | none => (false, s)
          | none => (false, s)
  | Field.Album =>
      if fileInfo.isSome then (false, s) else
      match p.val with
      | none => (false, s)
      | some val =>
          let mp3 := update_mp3_meta entry s.mp3
          let s := { s with mp3 := mp3 }
          match mp3 with
          | some m =>
              match m.tag with
              | some tag => (strMatchTag p.op val p.rx tag.album, s)
              | none => (false, s)
          | none => (false, s)
  | Field.Genre =>
      if fileInfo.isSome then (false, s) else
      match p.val with
      | none => (false, s)
      | some val =>
          let mp3 := update_mp3_meta entry s.mp3
          let s := { s with mp3 := mp3 }
          match mp3 with
          | some m =>
              match m.tag with
              | some tag => (strMatchTag p.op val p.rx tag.genre, s)
              | none => (false, s)
          | none => (false, s)
  | Field.Year =>
      if fileInfo.isSome then (false, s) else
      match p.val with
      | none => (false, s)
      | some val =>
          let mp3 := update_mp3_meta entry s.mp3
          let s := { s with mp3 := mp3 }
          match mp3 with
          | some m =>
              match val.toNat? with
              | some v =>
                  match m.tag with
                  | some tag =>
                      if tag.year > 0 then (numMatch p.op tag.year v, s)
                      else (false, s)
                  | none => (false, s)
              | none => (false, s)
          | none => (false, s)

/-- The filter expression tree (`parser::Expr`); the parser produces
exactly one of a leaf or a logical node (spec §3). -/
inductive Expr where
  | leaf (p : LeafPred)
  | and (l r : Expr)
  | or (l r : Expr)

/-- `Searcher::conforms` (searcher.rs:940-1950): short-circuit boolean
evaluation threading the metadata slots. -/
def conforms (env : Env) (entry : RealEntry) (fileInfo : Option FileInfo) :
    Expr → Slots → Bool × Slots
  | Expr.leaf p, s => evalLeaf env entry fileInfo p s
  | Expr.and l r, s =>
      let left := conforms env entry fileInfo l s
      if !left.1 then (false, left.2)
      else
        let right := conforms env entry fileInfo r left.2
        (left.1 && right.1, right.2)
  | Expr.or l r, s =>
      let left := conforms env entry fileInfo l s
      if left.1 then (true, left.2)
      else
        let right := conforms env entry fileInfo r left.2
        (left.1 || right.1, right.2)

/-- Result of the instrumented evaluator: boolean result, final slots, and
the list of predicate leaves evaluated, in evaluation order. -/
structure CRes where
  res : Bool
  slots : Slots
  trace : List LeafPred

/-- `Searcher::conforms` instrumented with an evaluation trace: identical
control flow to `conforms`, additionally recording each leaf the moment it
is evaluated.  Used to state the short-circuit property. -/
def conformsT (env : Env) (entry : RealEntry) (fileInfo : Option FileInfo) :
    Expr → Slots → CRes
  | Expr.leaf p, s =>
      let r := evalLeaf env entry fileInfo p s
      ⟨r.1, r.2, [p]⟩
  | Expr.and l r, s =>
      let left := conformsT env entry fileInfo l s
      if !left.res then ⟨false, left.slots, left.trace⟩
      else
        let right := conformsT env entry fileInfo r left.slots
        ⟨left.res && right.res, right.slots, left.trace ++ right.trace⟩
  | Expr.or l r, s =>
      let left := conformsT env entry fileInfo l s
      if left.res then ⟨true, left.slots, left.trace⟩
      else
        let right := conformsT env entry fileInfo r left.slots
        ⟨left.res || right.res, right.slots, left.trace ++ right.trace⟩

/-- The instrumentation is sound: `conformsT` computes the same result and
slots as `conforms`. -/
theorem conformsT_agrees (env : Env) (entry : RealEntry)
    (fileInfo : Option FileInfo) (e : Expr) (s : Slots) :
    ((conformsT env entry fileInfo e s).res,
     (conformsT env entry fileInfo e s).slots) =
      conforms env entry fileInfo e s := by
  induction e generalizing s with
  | leaf p => rfl
  | and l r ihl ihr =>
      simp only [conformsT, conforms]
      rw [← ihl s]
      by_cases h : (conformsT env entry fileInfo l s).res
      · simp only [h]
        rw [← ihr]
        simp
      · simp [h]
  | or l r ihl ihr =>
      simp only [conformsT, conforms]
      rw [← ihl s]
      by_cases h : (conformsT env entry fileInfo l s).res
      · simp [h]
      · simp only [h]
        rw [← ihr]
        simp

/-- Every expression evaluation touches at least one leaf, so a subtree's
contribution to the trace is observable. -/
theorem conformsT_trace_ne_nil (env : Env) (entry : RealEntry)
    (fileInfo : Option FileInfo) (e : Expr) (s : Slots) :
    (conformsT env entry fileInfo e s).trace ≠ [] := by
  induction e generalizing s with
  | leaf p => simp [conformsT]
  | and l r ihl ihr =>
      simp only [conformsT]
      by_cases h : (conformsT env entry fileInfo l s).res
      · rw [if_neg (by simp [h])]
        intro hc
        exact ihl s (List.append_eq_nil.mp hc).1
      · rw [if_pos (by simp [h])]
        exact ihl s
  | or l r ihl ihr =>
      simp only [conformsT]
      by_cases h : (conformsT env entry fileInfo l s).res
      · rw [if_pos h]
        exact ihl s
      · rw [if_neg h]
        intro hc
        exact ihl s (List.append_eq_nil.mp hc).1

/-!
## Traversal, limit handling and output buffering

This part models `Searcher::visit_dirs` / `Searcher::check_file`
(searcher.rs:209-311 and 843-918) at the level of the row flow: the filter
result of each candidate entry is abstracted to a boolean flag, since the
claims about limits and buffering are independent of why an entry passes.
Rows are identified by the value of the `found` counter at the moment they
pass, which makes streamed and buffered rows observable.
-/

/-- The query data the traversal consults: `limit` (0 = unlimited), and
whether ordering fields / an aggregate projection are present
(`Query.limit`, `Query.ordering_fields`, aggregate detection in
`Searcher::has_aggregate_column`). -/
structure Query where
  limit : Nat
  hasOrdering : Bool
  hasAggregate : Bool

/-- `Searcher::is_buffered` (searcher.rs:66). -/
def is_buffered (q : Query) : Bool :=
  q.hasOrdering || q.hasAggregate

/-- Modelled from the spec: insertion into the bounded top-N buffer
(`TopN` lives in util.rs, which is not in this snapshot); §4.6: the entry
is added and, when the size exceeds the limit, the maximum under the
criteria comparison is evicted so the buffer holds the N smallest.  A
limit of 0 means the buffer is limitless (`Searcher::new`,
searcher.rs:61).  Keys are abstracted to the row identifiers. -/
def topnInsert (limit : Nat) (buf : List Nat) (x : Nat) : List Nat :=
  let b := buf ++ [x]
  if 0 < limit ∧ limit < b.length then
    b.erase (b.foldl Nat.max 0)
  else b

/-- The mutable searcher state: the `found` counter, the streamed rows (in
emission order), the ordered output buffer, and the number of rows pushed
into the raw aggregate buffer (`Searcher` fields, searcher.rs:44-51). -/
structure SState where
  found : Nat
  streamed : List Nat
  buffer : List Nat
  rawCount : Nat
deriving DecidableEq

/-- `Searcher::check_file` for an entry whose filter evaluation yielded
`passes` (searcher.rs:843-918): on a pass the `found` counter is
incremented and the rendered row is either inserted into the top-N buffer
(buffered mode, plus the raw aggregate buffer when aggregates are present)
or streamed immediately. -/
def check_file (q : Query) (passes : Bool) (s : SState) : SState :=
  if passes then
    let f := s.found + 1
    if is_buffered q then
      { s with
        found := f
        buffer := topnInsert q.limit s.buffer f
        rawCount := if q.hasAggregate then s.rawCount + 1 else s.rawCount }
    else
      { s with found := f, streamed := s.streamed ++ [f] }
  else s

/-- The depth guard of `Searcher::visit_dirs` (searcher.rs:221). -/
def depthOk (minDepth maxDepth depth : Nat) : Bool :=
  (minDepth == 0 || decide (minDepth ≤ depth)) &&
  (maxDepth == 0 || decide (depth ≤ maxDepth))

mutual

/-- A filesystem node as the traversal sees it: `ignored` is the combined
gitignore-filter verdict for the entry, `passes` the filter result of
`check_file` on the entry itself; files carry whether they are a
recognized archive together with the filter results of their members
(virtual entries). -/
inductive FNode where
  | file (ignored passes isArch : Bool) (members : List Bool)
  | dir (ignored passes : Bool) (entries : FForest)

/-- A directory listing, in OS enumeration order. -/
inductive FForest where
  | nil
  | cons (e : FNode) (rest : FForest)

end

/-- The archive-member loop of `Searcher::visit_dirs`
(searcher.rs:258-267): before each member, enumeration stops when `limit`
is positive and `found` has reached it — with no buffering check. -/
def processArchive (q : Query) : List Bool → SState → SState
  | [], s => s
  | m :: ms, s =>
      if 0 < q.limit ∧ q.limit ≤ s.found then s
      else processArchive q ms (check_file q m s)

mutual

/-- `Searcher::visit_dirs` and its child loop (searcher.rs:209-311),
split into the depth-guarded directory visit, the entry loop with its
streaming-only limit break (searcher.rs:244), and the per-entry handling
(gitignore skip, `check_file`, archive expansion, recursion). -/
def visit_dirs (q : Query) (searchArchives : Bool) (minDepth maxDepth : Nat)
    (depth : Nat) (entries : FForest) (s : SState) : SState :=
  if depthOk minDepth maxDepth depth then
    processEntries q searchArchives minDepth maxDepth depth entries s
  else s

/-- The entry loop of `Searcher::visit_dirs` (searcher.rs:243-296). -/
def processEntries (q : Query) (searchArchives : Bool)
    (minDepth maxDepth : Nat) (depth : Nat) :
    FForest → SState → SState
  | FForest.nil, s => s
  | FForest.cons e rest, s =>
      if is_buffered q = false ∧ 0 < q.limit ∧ q.limit ≤ s.found then s
      else
        processEntries q searchArchives minDepth maxDepth depth rest
          (processEntry q searchArchives minDepth maxDepth depth e s)

/-- Handling of a single child entry (searcher.rs:248-295): skipped
entirely when the gitignore filters match; otherwise `check_file`, then
archive-member expansion when enabled, then recursion for directories. -/
def processEntry (q : Query) (searchArchives : Bool)
    (minDepth maxDepth : Nat) (depth : Nat) :
    FNode → SState → SState
  | FNode.file ignored passes isArch members, s =>
      if ignored then s
      else
        let s1 := check_file q passes s
        if searchArchives && isArch then processArchive q members s1 else s1
  | FNode.dir ignored passes entries, s =>
      if ignored then s
      else
        let s1 := check_file q passes s
        visit_dirs q searchArchives minDepth maxDepth (depth + 1) entries s1

end

/-- A whole-root search (`Searcher::list_search_results` calling
`visit_dirs` on the root with depth 1, searcher.rs:153-173). -/
def runSearch (q : Query) (searchArchives : Bool) (minDepth maxDepth : Nat)
    (root : FForest) : SState :=
  visit_dirs q searchArchives minDepth maxDepth 1 root ⟨0, [], [], 0⟩

/-- The number of output rows the searcher emits for a query without
aggregates: the buffered rows drained from the top-N buffer, or the rows
streamed during traversal (searcher.rs:190-202 and 916). -/
def emittedRows (q : Query) (s : SState) : Nat :=
  if is_buffered q then s.buffer.length else s.streamed.length

mutual

/-- The number of filter-passing entries a traversal that never stops
early would count: every non-ignored entry plus, for archives searched,
every member. -/
def countMatches (searchArchives : Bool) : FForest → Nat
  | FForest.nil => 0
  | FForest.cons e rest =>
      countMatchesEntry searchArchives e + countMatches searchArchives rest

/-- Per-entry pass count of a never-stopping traversal. -/
def countMatchesEntry (searchArchives : Bool) : FNode → Nat
  | FNode.file ignored passes isArch members =>
      if ignored then 0
      else
        (if passes then 1 else 0) +
          (if searchArchives && isArch then members.countP id else 0)
  | FNode.dir ignored passes entries =>
      if ignored then 0
      else
        (if passes then 1 else 0) + countMatches searchArchives entries

end

/-- The entry loop without the limit break: what a traversal that always
completes every directory enumeration would do.  Used to state that
buffered queries never break the entry loop. -/
def processEntriesAll (q : Query) (searchArchives : Bool)
    (minDepth maxDepth : Nat) (depth : Nat) :
    FForest → SState → SState
  | FForest.nil, s => s
  | FForest.cons e rest, s =>
      processEntriesAll q searchArchives minDepth maxDepth depth rest
        (processEntry q searchArchives minDepth maxDepth depth e s)

/-- Folding `Nat.max` over a list yields the seed or a list element. -/
theorem foldl_max_seed_or_mem (l : List Nat) (a : Nat) :
    l.foldl Nat.max a = a ∨ l.foldl Nat.max a ∈ l := by
  induction l generalizing a with
  | nil => exact Or.inl rfl
  | cons x xs ih =>
      rcases ih (Nat.max a x) with h | h
      · rcases Nat.le_total a x with hle | hle
        · refine Or.inr ?_
          have hmax : Nat.max a x = x := Nat.max_eq_right hle
          rw [hmax] at h
          rw [List.foldl_cons, hmax, h]
          exact List.mem_cons_self x xs
        · refine Or.inl ?_
          have hmax : Nat.max a x = a := Nat.max_eq_left hle
          rw [hmax] at h
          rw [List.foldl_cons, hmax, h]
      · exact Or.inr (List.mem_cons_of_mem _ h)

/-- The seed is below the `Nat.max` fold. -/
theorem seed_le_foldl_max (l : List Nat) (a : Nat) : a ≤ l.foldl Nat.max a := by
  induction l generalizing a with
  | nil => exact Nat.le_refl a
  | cons x xs ih => exact Nat.le_trans (Nat.le_max_left a x) (ih (Nat.max a x))

/-- Every element is below the `Nat.max` fold. -/
theorem mem_le_foldl_max (l : List Nat) (a x : Nat) (hx : x ∈ l) :
    x ≤ l.foldl Nat.max a := by
  induction l generalizing a with
  | nil => cases hx
  | cons y ys ih =>
      rcases List.mem_cons.mp hx with h | h
      · subst h
        exact Nat.le_trans (Nat.le_max_right a x) (seed_le_foldl_max ys _)
      · exact ih _ h

/-- The `Nat.max` fold over a nonempty list is one of its elements. -/
theorem foldl_max_mem (l : List Nat) (hl : l ≠ []) : l.foldl Nat.max 0 ∈ l := by
  rcases foldl_max_seed_or_mem l 0 with h | h
  · obtain ⟨x, xs, rfl⟩ : ∃ x xs, l = x :: xs := by
      cases l with
      | nil => exact absurd rfl hl
      | cons a as => exact ⟨a, as, rfl⟩
    have hx : x ≤ List.foldl Nat.max 0 (x :: xs) :=
      mem_le_foldl_max (x :: xs) 0 x (by simp)
    rw [h] at hx
    have hx0 : x = 0 := Nat.le_antisymm hx (Nat.zero_le x)
    rw [h, ← hx0]
    simp
  · exact h

/-- Insertion into a bounded top-N buffer keeps its size within a positive
limit. -/
theorem topnInsert_length_le (limit : Nat) (buf : List Nat) (x : Nat)
    (hlim : 0 < limit) (hbuf : buf.length ≤ limit) :
    (topnInsert limit buf x).length ≤ limit := by
  unfold topnInsert
  by_cases h : 0 < limit ∧ limit < (buf ++ [x]).length
  · rw [if_pos h]
    have hne : buf ++ [x] ≠ [] := by simp
    have hmem := foldl_max_mem (buf ++ [x]) hne
    rw [List.length_erase_of_mem hmem]
    simp only [List.length_append, List.length_cons, List.length_nil]
    omega
  · rw [if_neg h]
    simp only [List.length_append, List.length_cons, List.length_nil] at h ⊢
    omega

/-- `check_file` increments `found` by at most one. -/
theorem check_file_found_le (q : Query) (m : Bool) (s : SState) :
    s.found ≤ (check_file q m s).found ∧
      (check_file q m s).found ≤ s.found + 1 := by
  unfold check_file
  by_cases hm : m = true
  · by_cases hb : is_buffered q = true <;> simp [hm, hb]
  · simp [hm]

/-- Any state predicate preserved by `check_file` is preserved by the
archive-member loop. -/
theorem processArchive_preserves (q : Query) (P : SState → Prop)
    (hP : ∀ m s, P s → P (check_file q m s)) (ms : List Bool) :
    ∀ s, P s → P (processArchive q ms s) := by
  induction ms with
  | nil => intro s hs; exact hs
  | cons m rest ih =>
      intro s hs
      unfold processArchive
      by_cases h : 0 < q.limit ∧ q.limit ≤ s.found
      · rw [if_pos h]; exact hs
      · rw [if_neg h]; exact ih _ (hP m s hs)

mutual

/-- Any state predicate preserved by `check_file` is preserved by the
entry loop. -/
theorem processEntries_preserves (q : Query) (sa : Bool) (minD maxD : Nat)
    (P : SState → Prop) (hP : ∀ m s, P s → P (check_file q m s))
    (depth : Nat) (es : FForest) :
    ∀ s, P s → P (processEntries q sa minD maxD depth es s) := by
  match es with
  | FForest.nil => intro s hs; simpa [processEntries] using hs
  | FForest.cons e rest =>
      intro s hs
      unfold processEntries
      by_cases h : is_buffered q = false ∧ 0 < q.limit ∧ q.limit ≤ s.found
      · rw [if_pos h]; exact hs
      · rw [if_neg h]
        exact processEntries_preserves q sa minD maxD P hP depth rest _
          (processEntry_preserves q sa minD maxD P hP depth e s hs)

/-- Any state predicate preserved by `check_file` is preserved by the
handling of one entry. -/
theorem processEntry_preserves (q : Query) (sa : Bool) (minD maxD : Nat)
    (P : SState → Prop) (hP : ∀ m s, P s → P (check_file q m s))
    (depth : Nat) (e : FNode) :
    ∀ s, P s → P (processEntry q sa minD maxD depth e s) := by
  match e with
  | FNode.file ignored passes isArch members =>
      intro s hs
      unfold processEntry
      by_cases hi : ignored = true
      · rw [if_pos hi]; exact hs
      · rw [if_neg hi]
        by_cases ha : sa && isArch
        · rw [if_pos ha]
          exact processArchive_preserves q P hP members _ (hP passes s hs)
        · rw [if_neg ha]
          exact hP passes s hs
  | FNode.dir ignored passes entries =>
      intro s hs
      unfold processEntry visit_dirs
      by_cases hi : ignored = true
      · rw [if_pos hi]; exact hs
      · rw [if_neg hi]
        by_cases hd : depthOk minD maxD (depth + 1) = true
        · rw [if_pos hd]
          exact processEntries_preserves q sa minD maxD P hP (depth + 1)
            entries _ (hP passes s hs)
        · rw [if_neg hd]
          exact hP passes s hs

end

/-- In streaming mode a passing `check_file` appends exactly one row and
increments `found`, so the streamed-row count tracks `found`. -/
theorem check_file_stream_inv (q : Query) (hb : is_buffered q = false)
    (m : Bool) (s : SState) (h : s.streamed.length = s.found) :
    (check_file q m s).streamed.length = (check_file q m s).found := by
  unfold check_file
  by_cases hm : m = true
  · simp [hm, hb, h]
  · simp [hm, h]

/-- In streaming mode with a positive limit the archive loop keeps
`found` within the limit. -/
theorem processArchive_found_le (q : Query) (hl : 0 < q.limit)
    (ms : List Bool) : ∀ s, s.found ≤ q.limit →
      (processArchive q ms s).found ≤ q.limit := by
  induction ms with
  | nil => intro s hs; exact hs
  | cons m rest ih =>
      intro s hs
      unfold processArchive
      by_cases h : 0 < q.limit ∧ q.limit ≤ s.found
      · rw [if_pos h]; exact hs
      · rw [if_neg h]
        have hlt : s.found < q.limit := by
          rcases Nat.lt_or_ge s.found q.limit with h1 | h1
          · exact h1
          · exact absurd ⟨hl, h1⟩ h
        exact ih _ (by
          have := (check_file_found_le q m s).2
          omega)

mutual

/-- In streaming mode with a positive limit the entry loop keeps `found`
within the limit (the break at searcher.rs:244 fires before it could be
exceeded). -/
theorem processEntries_found_le (q : Query) (sa : Bool) (minD maxD : Nat)
    (hb : is_buffered q = false) (hl : 0 < q.limit)
    (depth : Nat) (es : FForest) :
    ∀ s, s.found ≤ q.limit →
      (processEntries q sa minD maxD depth es s).found ≤ q.limit := by
  match es with
  | FForest.nil => intro s hs; simpa [processEntries] using hs
  | FForest.cons e rest =>
      intro s hs
      unfold processEntries
      by_cases h : is_buffered q = false ∧ 0 < q.limit ∧ q.limit ≤ s.found
      · rw [if_pos h]; exact hs
      · rw [if_neg h]
        have hlt : s.found < q.limit := by
          rcases Nat.lt_or_ge s.found q.limit with h1 | h1
          · exact h1
          · exact absurd ⟨hb, hl, h1⟩ h
        exact processEntries_found_le q sa minD maxD hb hl depth rest _
          (processEntry_found_le q sa minD maxD hb hl depth e s hlt)

/-- In streaming mode, handling one entry from a state strictly below the
limit cannot push `found` past it. -/
theorem processEntry_found_le (q : Query) (sa : Bool) (minD maxD : Nat)
    (hb : is_buffered q = false) (hl : 0 < q.limit)
    (depth : Nat) (e : FNode) :
    ∀ s, s.found < q.limit →
      (processEntry q sa minD maxD depth e s).found ≤ q.limit := by
  match e with
  | FNode.file ignored passes isArch members =>
      intro s hs
      unfold processEntry
      by_cases hi : ignored = true
      · rw [if_pos hi]; omega
      · rw [if_neg hi]
        have h1 : (check_file q passes s).found ≤ q.limit := by
          have := (check_file_found_le q passes s).2
          omega
        by_cases ha : sa && isArch
        · rw [if_pos ha]
          exact processArchive_found_le q hl members _ h1
        · rw [if_neg ha]
          exact h1
  | FNode.dir ignored passes entries =>
      intro s hs
      unfold processEntry visit_dirs
      by_cases hi : ignored = true
      · rw [if_pos hi]; omega
      · rw [if_neg hi]
        have h1 : (check_file q passes s).found ≤ q.limit := by
          have := (check_file_found_le q passes s).2
          omega
        by_cases hd : depthOk minD maxD (depth + 1) = true
        · rw [if_pos hd]
          exact processEntries_found_le q sa minD maxD hb hl (depth + 1)
            entries _ h1
        · rw [if_neg hd]
          exact h1

end

/-- C1.  For every query with a positive limit and no aggregate
projection, and every filesystem state, the searcher emits at most
`limit` output rows: in streaming mode the break at searcher.rs:244 keeps
`found` (which equals the streamed-row count) within the limit, and in
buffered mode the top-N buffer of `Searcher::new` is bounded by the
limit. -/
theorem emitted_rows_le_limit (q : Query) (sa : Bool) (minD maxD : Nat)
    (root : FForest) (hl : 0 < q.limit) (_hagg : q.hasAggregate = false) :
    emittedRows q (runSearch q sa minD maxD root) ≤ q.limit := by
  unfold emittedRows runSearch visit_dirs
  by_cases hb : is_buffered q = true
  · rw [if_pos hb]
    have hP : ∀ m s, s.buffer.length ≤ q.limit →
        (check_file q m s).buffer.length ≤ q.limit := by
      intro m s hs
      unfold check_file
      by_cases hm : m = true
      · simp only [hm, if_pos rfl, hb, if_pos rfl]
        exact topnInsert_length_le q.limit s.buffer (s.found + 1) hl hs
      · simp [hm, hs]
    by_cases hd : depthOk minD maxD 1 = true
    · rw [if_pos hd]
      exact processEntries_preserves q sa minD maxD
        (fun s => s.buffer.length ≤ q.limit) hP 1 root ⟨0, [], [], 0⟩
        (by simp)
    · rw [if_neg hd]
      simp
  · have hb' : is_buffered q = false := by
      revert hb
      cases is_buffered q <;> simp
    rw [if_neg hb]
    by_cases hd : depthOk minD maxD 1 = true
    · rw [if_pos hd]
      have hstream := processEntries_preserves q sa minD maxD
        (fun s => s.streamed.length = s.found)
        (fun m s h => check_file_stream_inv q hb' m s h) 1 root
        ⟨0, [], [], 0⟩ (by simp)
      have hfound := processEntries_found_le q sa minD maxD hb' hl 1 root
        ⟨0, [], [], 0⟩ (by simp)
      omega
    · rw [if_neg hd]
      simp

/-- Witness for C1 at a concrete query and filesystem. -/
theorem emitted_rows_le_limit_witness :
    emittedRows ⟨1, false, false⟩
        (runSearch ⟨1, false, false⟩ true 0 0
          (FForest.cons (FNode.file false true true [true, true])
            (FForest.cons (FNode.file false true false []) FForest.nil))) ≤ 1 :=
  emitted_rows_le_limit ⟨1, false, false⟩ true 0 0
    (FForest.cons (FNode.file false true true [true, true])
      (FForest.cons (FNode.file false true false []) FForest.nil))
    (by decide) rfl

/-- C2 counterexample: a buffered query (ordering present, no aggregate)
with `limit = 1` over a root holding one matching archive file with two
matching members.  A traversal that never cut enumeration short would pass
3 entries, but the archive-member loop (searcher.rs:258-261) checks the
limit without any buffering test and stops after the file itself, so the
search ends with `found = 1`. -/
theorem buffered_archive_enumeration_stops_early :
    (runSearch ⟨1, true, false⟩ true 0 0
        (FForest.cons (FNode.file false true true [true, true])
          FForest.nil)).found = 1 ∧
    countMatches true
        (FForest.cons (FNode.file false true true [true, true])
          FForest.nil) = 3 := by
  constructor
  · simp [runSearch, visit_dirs, processEntries, processEntry, processArchive,
      check_file, is_buffered, depthOk, topnInsert]
  · decide

/-- The entry loop never takes its break branch when the query is
buffered. -/
theorem processEntries_eq_all_of_buffered (q : Query)
    (hb : is_buffered q = true) (sa : Bool) (minD maxD depth : Nat)
    (es : FForest) : ∀ s,
    processEntries q sa minD maxD depth es s =
      processEntriesAll q sa minD maxD depth es s := by
  match es with
  | FForest.nil => intro s; simp [processEntries, processEntriesAll]
  | FForest.cons e rest =>
      intro s
      unfold processEntries processEntriesAll
      rw [if_neg (by simp [hb])]
      exact processEntries_eq_all_of_buffered q hb sa minD maxD depth rest _

/-- C2 amended: for buffered queries the per-directory entry loop is never
stopped early (its break requires streaming mode), but the archive-member
loop stops as soon as `found` has reached a positive limit, buffered or
not. -/
theorem buffered_entry_loop_never_breaks (q : Query) (sa : Bool)
    (minD maxD depth : Nat) (es : FForest) (s : SState) (ms : List Bool)
    (m : Bool) :
    (is_buffered q = true →
      processEntries q sa minD maxD depth es s =
        processEntriesAll q sa minD maxD depth es s)
    ∧ (0 < q.limit → q.limit ≤ s.found →
        processArchive q (m :: ms) s = s) := by
  constructor
  · intro hb
    exact processEntries_eq_all_of_buffered q hb sa minD maxD depth es s
  · intro hl hf
    unfold processArchive
    rw [if_pos ⟨hl, hf⟩]

/-- Witness for C2 amended at a concrete buffered query, entry list and
archive state. -/
theorem buffered_entry_loop_never_breaks_witness :
    (processEntries ⟨1, true, false⟩ true 0 0 1
        (FForest.cons (FNode.file false true false []) FForest.nil)
        ⟨5, [], [], 0⟩ =
      processEntriesAll ⟨1, true, false⟩ true 0 0 1
        (FForest.cons (FNode.file false true false []) FForest.nil)
        ⟨5, [], [], 0⟩)
    ∧ processArchive ⟨1, true, false⟩ [true] ⟨5, [], [], 0⟩ = ⟨5, [], [], 0⟩ :=
  ⟨(buffered_entry_loop_never_breaks ⟨1, true, false⟩ true 0 0 1
      (FForest.cons (FNode.file false true false []) FForest.nil)
      ⟨5, [], [], 0⟩ [] true).1 rfl,
   (buffered_entry_loop_never_breaks ⟨1, true, false⟩ true 0 0 1
      (FForest.cons (FNode.file false true false []) FForest.nil)
      ⟨5, [], [], 0⟩ [] true).2 (by decide) (by decide)⟩

/-- C3 counterexample: a query with `limit = 1` but neither ordering nor
aggregates is NOT buffered (`Searcher::is_buffered` checks only ordering
and aggregates, searcher.rs:66), so its single passing row is streamed
directly and the top-N buffer stays empty, contradicting the claim that
`limit > 0` alone forces buffering. -/
theorem limit_only_query_streams :
    is_buffered ⟨1, false, false⟩ = false ∧
    (runSearch ⟨1, false, false⟩ false 0 0
        (FForest.cons (FNode.file false true false []) FForest.nil)).buffer = [] ∧
    (runSearch ⟨1, false, false⟩ false 0 0
        (FForest.cons (FNode.file false true false []) FForest.nil)).streamed = [1] := by
  refine ⟨rfl, ?_, ?_⟩ <;>
    simp [runSearch, visit_dirs, processEntries, processEntry, processArchive,
      check_file, is_buffered, depthOk, topnInsert]

/-- C3 amended: a passing row is inserted into the bounded top-N buffer
exactly when the query has ordering fields or an aggregate column; with
`limit > 0` but neither, the row is streamed directly. -/
theorem rows_buffered_iff_ordering_or_aggregate (q : Query) (s : SState) :
    (is_buffered q = true →
      (check_file q true s).streamed = s.streamed ∧
      (check_file q true s).buffer = topnInsert q.limit s.buffer (s.found + 1))
    ∧ (is_buffered q = false →
      (check_file q true s).buffer = s.buffer ∧
      (check_file q true s).streamed = s.streamed ++ [s.found + 1]) := by
  constructor
  · intro hb
    unfold check_file
    rw [if_pos rfl, if_pos hb]
    exact ⟨rfl, rfl⟩
  · intro hb
    unfold check_file
    rw [if_pos rfl, if_neg (by simp [hb])]
    exact ⟨rfl, rfl⟩

/-- Witness for C3 amended: a buffered and a streaming instantiation. -/
theorem rows_buffered_iff_ordering_or_aggregate_witness :
    ((check_file ⟨2, true, false⟩ true ⟨0, [], [], 0⟩).buffer =
        topnInsert 2 [] 1)
    ∧ (check_file ⟨2, false, false⟩ true ⟨0, [], [], 0⟩).streamed = [1] :=
  ⟨((rows_buffered_iff_ordering_or_aggregate ⟨2, true, false⟩
      ⟨0, [], [], 0⟩).1 rfl).2,
   ((rows_buffered_iff_ordering_or_aggregate ⟨2, false, false⟩
      ⟨0, [], [], 0⟩).2 rfl).2⟩

/-- C4.  For a datetime predicate on `Created`, `Accessed` or `Modified`
over a real entry whose metadata supplies the timestamp `dt`, and the
parsed range `[a, b]`: `Eeq` holds iff `dt = a`, `Ene` iff `dt ≠ a`, `Eq`
iff `a ≤ dt ≤ b`, `Ne` iff `dt < a` or `dt > b`, `Gt` iff `dt > b`, `Gte`
iff `dt ≥ a`, `Lt` iff `dt < a`, `Lte` iff `dt ≤ b`
(searcher.rs:1521-1531, 1550-1560, 1587-1597). -/
theorem datetime_range_semantics (env : Env) (entry : RealEntry) (md : Meta)
    (f : Field) (op : Op) (v : String) (rx : Option (String → Bool))
    (a b dt : Int)
    (hmeta : entry.metaAvail = some md)
    (hf : (f = Field.Created ∧ md.created = some dt)
        ∨ (f = Field.Accessed ∧ md.accessed = some dt)
        ∨ (f = Field.Modified ∧ md.modified = some dt)) :
    ((conforms env entry none
        (Expr.leaf ⟨f, some op, some v, rx, some a, some b⟩)
        ⟨none, none, none⟩).1 = true ↔
      match op with
      | Op.Eeq => dt = a
      | Op.Ene => dt ≠ a
      | Op.Eq => a ≤ dt ∧ dt ≤ b
      | Op.Ne => dt < a ∨ b < dt
      | Op.Gt => b < dt
      | Op.Gte => a ≤ dt
      | Op.Lt => dt < a
      | Op.Lte => dt ≤ b
      | _ => False) := by
  rcases hf with ⟨hf1, hdt⟩ | ⟨hf1, hdt⟩ | ⟨hf1, hdt⟩ <;> subst hf1 <;>
    cases op <;>
    simp [conforms, evalLeaf, update_meta, hmeta, hdt, dtMatch]

/-- Witness for C4: the `Eq` operator on `Modified` with range `[3, 7]`
and timestamp `5`. -/
theorem datetime_range_semantics_witness :
    ((conforms ⟨fun _ => none, fun _ => none, fun _ => ""⟩
        ⟨"f", "/f", some ⟨0, 0, none, none, none, none, some 5⟩,
          none, none, none, none⟩ none
        (Expr.leaf ⟨Field.Modified, some Op.Eq, some "x", none,
          some 3, some 7⟩)
        ⟨none, none, none⟩).1 = true ↔ ((3:Int) ≤ 5 ∧ (5:Int) ≤ 7)) :=
  datetime_range_semantics ⟨fun _ => none, fun _ => none, fun _ => ""⟩
    ⟨"f", "/f", some ⟨0, 0, none, none, none, none, some 5⟩,
      none, none, none, none⟩
    ⟨0, 0, none, none, none, none, some 5⟩
    Field.Modified Op.Eq "x" none 3 7 5 rfl
    (Or.inr (Or.inr ⟨rfl, rfl⟩))

/-- C5.  Short-circuit evaluation: for `And`, the right operand is
evaluated (contributes its leaves to the trace) exactly when the left
evaluated true; for `Or`, exactly when the left evaluated false; in both
cases the right is evaluated from the slots the left accumulated
(searcher.rs:953-997).  The final conjuncts record that every subtree
contributes at least one leaf (so "being evaluated" is observable) and
that the instrumented evaluator computes the same result and slots as
`Searcher::conforms`. -/
theorem short_circuit_and_or (env : Env) (entry : RealEntry)
    (fi : Option FileInfo) (l r : Expr) (s : Slots) :
    (conformsT env entry fi (Expr.and l r) s =
      (if (conformsT env entry fi l s).res then
        ⟨(conformsT env entry fi l s).res &&
            (conformsT env entry fi r (conformsT env entry fi l s).slots).res,
          (conformsT env entry fi r (conformsT env entry fi l s).slots).slots,
          (conformsT env entry fi l s).trace ++
            (conformsT env entry fi r (conformsT env entry fi l s).slots).trace⟩
      else ⟨false, (conformsT env entry fi l s).slots,
        (conformsT env entry fi l s).trace⟩))
    ∧ (conformsT env entry fi (Expr.or l r) s =
      (if (conformsT env entry fi l s).res then
        ⟨true, (conformsT env entry fi l s).slots,
          (conformsT env entry fi l s).trace⟩
      else
        ⟨(conformsT env entry fi l s).res ||
            (conformsT env entry fi r (conformsT env entry fi l s).slots).res,
          (conformsT env entry fi r (conformsT env entry fi l s).slots).slots,
          (conformsT env entry fi l s).trace ++
            (conformsT env entry fi r (conformsT env entry fi l s).slots).trace⟩))
    ∧ (∀ e s2, (conformsT env entry fi e s2).trace ≠ [])
    ∧ (∀ e s2, ((conformsT env entry fi e s2).res,
          (conformsT env entry fi e s2).slots) =
        conforms env entry fi e s2) := by
  refine ⟨?_, ?_, fun e s2 => conformsT_trace_ne_nil env entry fi e s2,
    fun e s2 => conformsT_agrees env entry fi e s2⟩
  · simp only [conformsT]
    by_cases h : (conformsT env entry fi l s).res
    · rw [if_neg (by simp [h]), if_pos h]
    · rw [if_pos (by simp [h]), if_neg h]
  · simp only [conformsT]

/-- C6.  For a virtual archive entry, a predicate on any of the fields
uid, gid, user, group, created, accessed, has_xattrs, is_shebang, width,
height, bitrate, freq, title, artist, album, year, genre evaluates to
false regardless of operator and value (the early
`return (false, meta, dim, mp3)` guards in `Searcher::conforms`). -/
theorem virtual_entry_fields_false (env : Env) (entry : RealEntry)
    (fi : FileInfo) (p : LeafPred) (s : Slots)
    (hf : p.field ∈ [Field.Uid, Field.Gid, Field.User, Field.Group,
      Field.Created, Field.Accessed, Field.HasXattrs, Field.IsShebang,
      Field.Width, Field.Height, Field.Bitrate, Field.Freq, Field.Title,
      Field.Artist, Field.Album, Field.Year, Field.Genre]) :
    (conforms env entry (some fi) (Expr.leaf p) s).1 = false := by
  obtain ⟨f, op, val, rx, d1, d2⟩ := p
  simp only [List.mem_cons, List.not_mem_nil, or_false] at hf
  simp only [conforms]
  rcases hf with h | h | h | h | h | h | h | h | h | h | h | h | h | h | h | h | h <;>
    subst h <;> simp [evalLeaf]

/-- Witness for C6: a `uid` predicate on a concrete virtual entry. -/
theorem virtual_entry_fields_false_witness :
    (conforms ⟨fun _ => some "root", fun _ => some "root", fun _ => ""⟩
        ⟨"a.zip", "/a.zip", some ⟨9, 420, some 0, some 0, some 1, some 2, some 3⟩,
          none, none, some 2, some (0x23, 0x21)⟩
        (some ⟨"inner/x.txt", 4, some 420, 7⟩)
        (Expr.leaf ⟨Field.Uid, some Op.Eq, some "0", none, none, none⟩)
        ⟨none, none, none⟩).1 = false :=
  virtual_entry_fields_false
    ⟨fun _ => some "root", fun _ => some "root", fun _ => ""⟩
    ⟨"a.zip", "/a.zip", some ⟨9, 420, some 0, some 0, some 1, some 2, some 3⟩,
      none, none, some 2, some (0x23, 0x21)⟩
    ⟨"inner/x.txt", 4, some 420, 7⟩
    ⟨Field.Uid, some Op.Eq, some "0", none, none, none⟩
    ⟨none, none, none⟩ (by decide)

/-- C7 counterexample: on the `Mode` field the `Eeq` operator does NOT
compare exactly — the `Mode` match has no `Eeq`/`Ene` arms
(searcher.rs:1410-1430), so the predicate is false even though the literal
equals the entry's formatted mode exactly (an exact comparison would be
true, as the second conjunct shows). -/
theorem mode_eeq_not_exact :
    (conforms ⟨fun _ => none, fun _ => none, fun _ => "rwxr-xr-x"⟩
        ⟨"f", "/f", some ⟨0, 493, none, none, none, none, none⟩,
          none, none, none, none⟩ none
        (Expr.leaf ⟨Field.Mode, some Op.Eeq, some "rwxr-xr-x", none,
          none, none⟩)
        ⟨none, none, none⟩).1 = false
    ∧ (("rwxr-xr-x" : String) == "rwxr-xr-x") = true := by
  exact ⟨rfl, rfl⟩

/-- C7 amended: `Eeq`/`Ene` are always-exact only for the fields
dispatching through the full string matcher (`Name`, `Path`, `User`,
`Group`); for the tag fields (`Title`, `Artist`, `Album`, `Genre`) `Eeq`
shares the `Eq` arm and `Ene` the `Ne` arm, so a precompiled regex takes
precedence over exact comparison; for `Mode`, `Eeq` and `Ene` fall into
the default arm and evaluate false.  The last two conjuncts exhibit this
at the evaluator level for `Name` (exact even with a regex present) and
`Mode` (false whatever the state of the metadata slot). -/
theorem eeq_ene_exactness_by_field (env : Env) (entry : RealEntry)
    (v s0 : String) (rx : Option (String → Bool)) (sl : Slots) :
    (strMatchFull (some Op.Eeq) v rx s0 = (v == s0)
      ∧ strMatchFull (some Op.Ene) v rx s0 = (v != s0))
    ∧ (strMatchTag (some Op.Eeq) v rx s0 =
        (match rx with | some r => r s0 | none => v == s0)
      ∧ strMatchTag (some Op.Ene) v rx s0 =
        (match rx with | some r => !(r s0) | none => v != s0))
    ∧ (strMatchMode (some Op.Eeq) v rx s0 = false
      ∧ strMatchMode (some Op.Ene) v rx s0 = false)
    ∧ (conforms env entry none
        (Expr.leaf ⟨Field.Name, some Op.Eeq, some v, rx, none, none⟩)
        sl).1 = (v == entry.name)
    ∧ (conforms env entry none
        (Expr.leaf ⟨Field.Mode, some Op.Eeq, some v, rx, none, none⟩)
        sl).1 = false := by
  refine ⟨⟨rfl, rfl⟩, ⟨rfl, rfl⟩, ⟨rfl, rfl⟩, rfl, ?_⟩
  simp only [conforms, evalLeaf]
  cases h : update_meta entry sl.meta <;> simp [h, strMatchMode]

/-!
## Gitignore filter combination

Embedding of `Searcher::get_gitignore_filters` (searcher.rs:313-347).
Directories are lists of path components and gitignore filters are
abstracted to identifiers; the `gitignore_map` is an association list with
distinct keys, mirroring the `HashMap<PathBuf, Vec<GitignoreFilter>>`
field. -/

/-- A directory path as a list of components; `PathBuf::pop` drops the
last component and fails on an empty path. -/
abbrev DirPath := List String

/-- Lookup of a directory in the `gitignore_map` (the source iterates the
map comparing `dir_path == dir`). -/
def mapLookup (m : List (DirPath × List Nat)) (d : DirPath) : Option (List Nat) :=
  match m with
  | [] => none
  | (k, v) :: rest => if k = d then some v else mapLookup rest d

/-- The ancestor loop of `Searcher::get_gitignore_filters`
(searcher.rs:326-346): pop to the parent, prepend the parent's remembered
filters when present, repeat until the path cannot be popped. -/
def collectAncestors (m : List (DirPath × List Nat)) (path : DirPath)
    (result : List Nat) : List Nat :=
  if hp : path = [] then result
  else
    have : path.dropLast.length < path.length := by
      cases path with
      | nil => exact absurd rfl hp
      | cons a as => simp [List.length_dropLast]
    collectAncestors m path.dropLast
      (match mapLookup m path.dropLast with
       | some rs => rs ++ result
       | none => result)
termination_by path.length

/-- `Searcher::get_gitignore_filters` (searcher.rs:313-347): if the
directory itself is remembered in the map, return ONLY its filters;
otherwise accumulate the remembered filters of its ancestors from the
innermost outwards, prepending, which yields outer-to-inner order. -/
def get_gitignore_filters (m : List (DirPath × List Nat)) (dir : DirPath) :
    List Nat :=
  match mapLookup m dir with
  | some rs => rs
  | none => collectAncestors m dir []

/-- The combined remembered filters of all proper ancestors of `d`, outer
(root) to inner, written directly from the spec's description. -/
def specAncestorCombined (m : List (DirPath × List Nat)) (d : DirPath) :
    List Nat :=
  ((List.range d.length).map
    (fun i => (mapLookup m (d.take i)).getD [])).flatten

/-- What the claim says should be applied when matching entries of `d`:
the remembered filters of every ancestor AND of `d` itself, outer to
inner. -/
def specCombinedFilters (m : List (DirPath × List Nat)) (d : DirPath) :
    List Nat :=
  specAncestorCombined m d ++ (mapLookup m d).getD []

/-- C8 counterexample: with `a` remembering filter `1` and `a/b`
remembering filter `2`, matching an entry of `a/b` applies only `[2]` —
the early return at searcher.rs:317-323 drops the ancestor's filters —
while the claim demands the combination `[1, 2]`. -/
theorem gitignore_ancestors_dropped :
    get_gitignore_filters [(["a"], [1]), (["a", "b"], [2])] ["a", "b"] = [2]
    ∧ specCombinedFilters [(["a"], [1]), (["a", "b"], [2])] ["a", "b"] = [1, 2]
    ∧ ([2] : List Nat) ≠ [1, 2] := by
  refine ⟨by decide, by decide, by decide⟩

/-- The ancestor loop accumulates exactly the outer-to-inner combination
of the proper ancestors' remembered filters, in front of its
accumulator. -/
theorem collectAncestors_eq (m : List (DirPath × List Nat)) :
    ∀ (n : Nat) (path : DirPath), path.length = n → ∀ acc,
      collectAncestors m path acc = specAncestorCombined m path ++ acc := by
  intro n
  induction n with
  | zero =>
      intro path hlen acc
      have hp : path = [] := List.eq_nil_of_length_eq_zero hlen
      subst hp
      rw [collectAncestors]
      simp [specAncestorCombined]
  | succ k ih =>
      intro path hlen acc
      have hp : path ≠ [] := by
        intro h
        rw [h] at hlen
        simp at hlen
      rw [collectAncestors, dif_neg hp]
      have hdl : path.dropLast.length = k := by
        simp [List.length_dropLast, hlen]
      rw [ih path.dropLast hdl]
      have htake : path.dropLast = path.take k := by
        simp [List.dropLast_eq_take, hlen]
      have hspec : specAncestorCombined m path =
          specAncestorCombined m path.dropLast ++
            (mapLookup m path.dropLast).getD [] := by
        unfold specAncestorCombined
        rw [hlen, List.range_succ, List.map_append, List.flatten_append, htake]
        have hmin : (path.take k).length = k := by
          rw [List.length_take, hlen]
          omega
        rw [hmin]
        refine congrArg₂ (· ++ ·) ?_ ?_
        · refine congrArg List.flatten (List.map_congr_left ?_)
          intro i hi
          have hik : i ≤ k := Nat.le_of_lt (List.mem_range.mp hi)
          rw [List.take_take, Nat.min_eq_left hik]
        · simp
      rw [hspec]
      cases hlk : mapLookup m path.dropLast <;> simp [hlk]

/-- C8 amended: when the directory itself has remembered filters, exactly
those are applied and every ancestor's are dropped; only when it has none
are the proper ancestors' remembered filters combined, outer to inner
(searcher.rs:313-347). -/
theorem gitignore_filters_applied (m : List (DirPath × List Nat))
    (d : DirPath) :
    (∀ rs, mapLookup m d = some rs → get_gitignore_filters m d = rs)
    ∧ (mapLookup m d = none →
        get_gitignore_filters m d = specAncestorCombined m d) := by
  constructor
  · intro rs hrs
    unfold get_gitignore_filters
    rw [hrs]
  · intro hnone
    unfold get_gitignore_filters
    rw [hnone]
    rw [collectAncestors_eq m d.length d rfl []]
    simp

/-- Witness for C8 amended: a directory with its own filters, and one
without, over a concrete map. -/
theorem gitignore_filters_applied_witness :
    get_gitignore_filters [(["a"], [1])] ["a"] = [1]
    ∧ get_gitignore_filters [(["a"], [1])] ["a", "b"] =
        specAncestorCombined [(["a"], [1])] ["a", "b"] :=
  ⟨(gitignore_filters_applied [(["a"], [1])] ["a"]).1 [1] (by decide),
   (gitignore_filters_applied [(["a"], [1])] ["a", "b"]).2 (by decide)⟩

/-!
## Output row formatting

Embedding of `Searcher::format_results_row` (searcher.rs:84-109) and
`Searcher::format_results_row_end` (searcher.rs:111-138).  The CSV writer
and the JSON serialization of the row map are external collaborators and
are passed in as rendering functions. -/

/-- `parser::OutputFormat`. -/
inductive OutputFormat where
  | Lines
  | List
  | Tabs
  | Csv
  | Json

/-- `Searcher::format_results_row` (searcher.rs:84-109): appends one
column value to the row being built (`Csv` collects records instead). -/
def format_results_row (fmt : OutputFormat) (record : String)
    (outputValue : String) (records : List String) : String × List String :=
  match fmt with
  | OutputFormat.Lines => (outputValue ++ record ++ "\n", records)
  | OutputFormat.List => (outputValue ++ record ++ "\x00", records)
  | OutputFormat.Json => (outputValue, records)
  | OutputFormat.Tabs => (outputValue ++ record ++ "\t", records)
  | OutputFormat.Csv => (outputValue, records ++ [record])

/-- `Searcher::format_results_row_end` (searcher.rs:111-138): finishes one
row.  `csvRender` stands for the external `csv::Writer` and `jsonMapStr`
for `serde_json::to_string` of the row map. -/
def format_results_row_end (fmt : OutputFormat) (outputValue : String)
    (records : List String) (csvRender : List String → String)
    (jsonMapStr : String) (buffered : Bool) (found : Nat) : String :=
  match fmt with
  | OutputFormat.Lines | OutputFormat.List => outputValue
  | OutputFormat.Tabs => outputValue ++ "\n"
  | OutputFormat.Csv => outputValue ++ csvRender records
  | OutputFormat.Json =>
      (if !buffered && decide (1 < found) then outputValue ++ ","
       else outputValue) ++ jsonMapStr

/-- One full row as `check_file` builds it (searcher.rs:893-907): fold the
projected column values through `format_results_row`, then finish with
`format_results_row_end`. -/
def renderRow (fmt : OutputFormat) (cols : List String)
    (csvRender : List String → String) (jsonMapStr : String)
    (buffered : Bool) (found : Nat) : String :=
  let acc := cols.foldl
    (fun pr c => format_results_row fmt c pr.1 pr.2)
    (("", []) : String × List String)
  format_results_row_end fmt acc.1 acc.2 csvRender jsonMapStr buffered found

/-- C9 counterexample: the scenario-1 row `name = "b.log"`, `size = 5000`
in `Tabs` format renders as `"b.log\t5000\t\n"` — every column, the last
included, is followed by a tab (searcher.rs:100-101) before the
terminating newline — not as the claimed `"b.log\t5000\n"`. -/
theorem tabs_row_has_trailing_tab :
    renderRow OutputFormat.Tabs ["b.log", "5000"] (fun _ => "") "" false 1 =
      "b.log\t5000\t\n"
    ∧ "b.log\t5000\t\n" ≠ "b.log\t5000\n" := by
  exact ⟨rfl, by decide⟩

/-- The concatenation of the column values each followed by a tab — the
accumulated row string after the `Tabs` arm of `format_results_row` has
been applied to every column. -/
def tabJoin : List String → String
  | [] => ""
  | c :: cs => c ++ "\t" ++ tabJoin cs

/-- The `Tabs` fold appends `c ++ "\t"` for every column. -/
theorem tabs_foldl (cols : List String) : ∀ (acc : String) (rs : List String),
    cols.foldl (fun pr c => format_results_row OutputFormat.Tabs c pr.1 pr.2)
        (acc, rs) =
      (acc ++ tabJoin cols, rs) := by
  induction cols with
  | nil => intro acc rs; simp [tabJoin]
  | cons c cs ih =>
      intro acc rs
      simp only [List.foldl_cons]
      rw [show format_results_row OutputFormat.Tabs c acc rs =
        (acc ++ c ++ "\t", rs) from rfl]
      rw [ih]
      simp [tabJoin, String.append_assoc]

/-- Unfolding step of `String.intercalate`. -/
theorem intercalate_go_cons (s a d : String) (ds : List String) :
    String.intercalate.go a s (d :: ds) =
      a ++ s ++ String.intercalate.go d s ds := by
  induction ds generalizing a d with
  | nil => rfl
  | cons e es ih =>
      show String.intercalate.go (a ++ s ++ d) s (e :: es) =
        a ++ s ++ String.intercalate.go d s (e :: es)
      rw [ih (a ++ s ++ d) e, ih d e]
      simp [String.append_assoc]

/-- Tab-suffixing every column equals the tab-intercalation plus one
trailing tab. -/
theorem tabJoin_eq_intercalate (c : String) (cs : List String) :
    tabJoin (c :: cs) = String.intercalate "\t" (c :: cs) ++ "\t" := by
  induction cs generalizing c with
  | nil => simp [tabJoin, String.intercalate, String.intercalate.go]
  | cons d ds ih =>
      show c ++ "\t" ++ tabJoin (d :: ds) = _
      rw [ih d]
      show _ = String.intercalate.go c "\t" (d :: ds) ++ "\t"
      rw [intercalate_go_cons]
      show c ++ "\t" ++ (String.intercalate "\t" (d :: ds) ++ "\t") =
        c ++ "\t" ++ String.intercalate.go d "\t" ds ++ "\t"
      show c ++ "\t" ++ (String.intercalate.go d "\t" ds ++ "\t") =
        c ++ "\t" ++ String.intercalate.go d "\t" ds ++ "\t"
      simp [String.append_assoc]

/-- C9 amended: in `Tabs` format a row with at least one column renders as
the column values separated by tabs, followed by one trailing tab and the
terminating newline. -/
theorem tabs_row_format (cols : List String) (h : cols ≠ [])
    (csvRender : List String → String) (js : String) (b : Bool) (f : Nat) :
    renderRow OutputFormat.Tabs cols csvRender js b f =
      String.intercalate "\t" cols ++ "\t\n" := by
  obtain ⟨c, cs, rfl⟩ : ∃ c cs, cols = c :: cs := by
    cases cols with
    | nil => exact absurd rfl h
    | cons a as => exact ⟨a, as, rfl⟩
  unfold renderRow
  rw [tabs_foldl]
  simp only [format_results_row_end]
  rw [tabJoin_eq_intercalate]
  show "" ++ (String.intercalate "\t" (c :: cs) ++ "\t") ++ "\n" = _
  simp [String.append_assoc]

/-- Witness for C9 amended at the scenario-1 columns. -/
theorem tabs_row_format_witness :
    renderRow OutputFormat.Tabs ["b.log", "5000"] (fun _ => "") "" false 1 =
      String.intercalate "\t" ["b.log", "5000"] ++ "\t\n" :=
  tabs_row_format ["b.log", "5000"] (by decide) (fun _ => "") "" false 1

/-!
## Ordering-criteria construction in `check_file`

Embedding of the criteria loop of `Searcher::check_file`
(searcher.rs:887-905).  A `ColumnExpr` is a literal value, a bare field,
or a function application (spec §3); only the presence of the inner bare
field matters to the `unwrap` at searcher.rs:903, so a column expression
is modelled by its optional bare field and its optional literal, and its
rendered label (`to_string().to_lowercase()`, parser.rs) is supplied as a
function. -/

/-- `parser::ColumnExpr` reduced to what the criteria loop inspects:
`field` is `some` exactly for a bare-field column. -/
structure ColumnExpr where
  field : Option Field
  hasFunction : Bool
  val : Option String

/-- `HashMap::insert` on the row's field map (later inserts shadow
earlier ones; lookup takes the most recent binding). -/
def mapInsert (fm : List (String × String)) (k v : String) :
    List (String × String) :=
  (k, v) :: fm

/-- `HashMap::get` on the row's field map. -/
def fmLookup (fm : List (String × String)) (k : String) : Option String :=
  match fm with
  | [] => none
  | (k2, v) :: rest => if k2 = k then some v else fmLookup rest k

/-- The row's field map after the loops at searcher.rs:889-898: a base
map (one entry per field of `Query::get_all_fields`) extended with one
entry per projected column, keyed by its lower-cased label. -/
def buildFileMap (base : List (String × String)) (projected : List ColumnExpr)
    (lbl : ColumnExpr → String) (colVal : ColumnExpr → String) :
    List (String × String) :=
  projected.foldl (fun fm ce => mapInsert fm (lbl ce) (colVal ce)) base

/-- One iteration of the criteria loop (searcher.rs:900-905): use the
row's field-map entry for the ordering field's label when present,
otherwise fall back to `get_field_value` on
`field.clone().field.unwrap()` — `none` models the unwrap-of-`None`
panic when the ordering column is not a bare field. -/
def buildCriterion (fm : List (String × String)) (fallback : Field → String)
    (lbl : ColumnExpr → String) (ce : ColumnExpr) : Option String :=
  match fmLookup fm (lbl ce) with
  | some r => some r
  | none => ce.field.map fallback

/-- The whole criteria loop; `none` exactly when some iteration panics. -/
def buildCriteria (fm : List (String × String)) (fallback : Field → String)
    (lbl : ColumnExpr → String) : List ColumnExpr → Option (List String)
  | [] => some []
  | ce :: rest =>
      match buildCriterion fm fallback lbl ce with
      | none => none
      | some c =>
          match buildCriteria fm fallback lbl rest with
          | none => none
          | some cs => some (c :: cs)

/-- A key present in the field map stays present under further inserts. -/
theorem fmLookup_buildFileMap_mono (projected : List ColumnExpr)
    (lbl : ColumnExpr → String) (colVal : ColumnExpr → String) (k : String) :
    ∀ fm, fmLookup fm k ≠ none →
      fmLookup (buildFileMap fm projected lbl colVal) k ≠ none := by
  induction projected with
  | nil => intro fm h; exact h
  | cons q qs ih =>
      intro fm h
      refine ih (mapInsert fm (lbl q) (colVal q)) ?_
      unfold mapInsert fmLookup
      by_cases hk : lbl q = k
      · rw [if_pos hk]; simp
      · rw [if_neg hk]; exact h

/-- Every projected column's label is present in the row's field map. -/
theorem fmLookup_buildFileMap_of_mem (base : List (String × String))
    (projected : List ColumnExpr) (lbl : ColumnExpr → String)
    (colVal : ColumnExpr → String) (pc : ColumnExpr) :
    pc ∈ projected →
      fmLookup (buildFileMap base projected lbl colVal) (lbl pc) ≠ none := by
  induction projected generalizing base with
  | nil => intro h; cases h
  | cons q qs ih =>
      intro h
      rcases List.mem_cons.mp h with h | h
      · subst h
        refine fmLookup_buildFileMap_mono qs lbl colVal (lbl pc)
          (mapInsert base (lbl pc) (colVal pc)) ?_
        unfold mapInsert fmLookup
        rw [if_pos rfl]
        simp
      · exact ih (mapInsert base (lbl q) (colVal q)) h

/-- The criteria loop fails (reaches the unwrap-of-`None`) exactly when
some ordering column has no bare field and its label is absent from the
field map. -/
theorem buildCriteria_none_iff (fm : List (String × String))
    (fallback : Field → String) (lbl : ColumnExpr → String)
    (ordering : List ColumnExpr) :
    buildCriteria fm fallback lbl ordering = none ↔
      ∃ ce ∈ ordering, ce.field = none ∧ fmLookup fm (lbl ce) = none := by
  induction ordering with
  | nil => simp [buildCriteria]
  | cons ce rest ih =>
      unfold buildCriteria
      cases hc : buildCriterion fm fallback lbl ce with
      | none =>
          have hce : ce.field = none ∧ fmLookup fm (lbl ce) = none := by
            unfold buildCriterion at hc
            cases hl : fmLookup fm (lbl ce) with
            | some r => rw [hl] at hc; cases hc
            | none =>
                rw [hl] at hc
                cases hf : ce.field with
                | some f => rw [hf] at hc; cases hc
                | none => exact ⟨rfl, rfl⟩
          simp only [true_iff]
          exact ⟨ce, List.mem_cons_self ce rest, hce⟩
      | some c =>
          have hce : ¬(ce.field = none ∧ fmLookup fm (lbl ce) = none) := by
            rintro ⟨hf, hl⟩
            unfold buildCriterion at hc
            rw [hl, hf] at hc
            cases hc
          cases hr : buildCriteria fm fallback lbl rest with
          | none =>
              simp only [true_iff]
              obtain ⟨ce2, hmem, hce2⟩ := ih.mp hr
              exact ⟨ce2, List.mem_cons_of_mem ce hmem, hce2⟩
          | some cs =>
              simp only [reduceCtorEq, false_iff]
              rintro ⟨ce2, hmem, hce2⟩
              rcases List.mem_cons.mp hmem with h | h
              · subst h; exact hce hce2
              · exact (ih.not.mp (by rw [hr]; simp)) ⟨ce2, h, hce2⟩

/-- C10.  Building the ordering criteria in `check_file` never reaches
the unwrap-of-`None` when every ordering field either is a bare `Field`
expression or shares its lower-cased label with a projected column; and
the unwrap is reached (the searcher would panic) exactly when an ordering
column is a function or literal expression whose label is absent from the
row's field map (searcher.rs:887-905). -/
theorem ordering_criteria_total_iff (base : List (String × String))
    (projected ordering : List ColumnExpr) (lbl : ColumnExpr → String)
    (colVal : ColumnExpr → String) (fallback : Field → String) :
    ((∀ ce ∈ ordering, (ce.field).isSome = true ∨
        ∃ pc ∈ projected, lbl pc = lbl ce) →
      (buildCriteria (buildFileMap base projected lbl colVal) fallback lbl
        ordering).isSome = true)
    ∧ (buildCriteria (buildFileMap base projected lbl colVal) fallback lbl
        ordering = none ↔
      ∃ ce ∈ ordering, ce.field = none ∧
        fmLookup (buildFileMap base projected lbl colVal) (lbl ce) = none) := by
  constructor
  · intro hyp
    rw [Option.isSome_iff_ne_none]
    rw [Ne, buildCriteria_none_iff]
    rintro ⟨ce, hmem, hf, hl⟩
    rcases hyp ce hmem with h | ⟨pc, hpc, hlbl⟩
    · rw [hf] at h; cases h
    · exact fmLookup_buildFileMap_of_mem base projected lbl colVal pc hpc
        (hlbl ▸ hl)
  · exact buildCriteria_none_iff _ _ _ _

/-- Witness for C10: one bare-field ordering column and one projected
function column, over a concrete labelling. -/
theorem ordering_criteria_total_iff_witness :
    (buildCriteria
      (buildFileMap [("name", "a.txt")]
        [⟨none, true, none⟩]
        (fun ce => if ce.hasFunction then "lower(name)" else "name")
        (fun _ => "a.txt"))
      (fun _ => "")
      (fun ce => if ce.hasFunction then "lower(name)" else "name")
      [⟨some Field.Name, false, none⟩, ⟨none, true, none⟩]).isSome = true :=
  (ordering_criteria_total_iff [("name", "a.txt")]
    [⟨none, true, none⟩]
    [⟨some Field.Name, false, none⟩, ⟨none, true, none⟩]
    (fun ce => if ce.hasFunction then "lower(name)" else "name")
    (fun _ => "a.txt") (fun _ => "")).1
    (by
      intro ce hce
      rcases List.mem_cons.mp hce with h | h
      · subst h; exact Or.inl rfl
      · rcases List.mem_cons.mp h with h | h
        · subst h
          exact Or.inr ⟨⟨none, true, none⟩, List.mem_cons_self _ _, rfl⟩
        · cases h)

end FSelect
